import Mathlib

/-!
Shallow embedding of the SMIV convolution datapath
(src/nnet_lib/src/core/smiv/convolution_simd.c), the SMIV layer dispatch
(src/nnet_lib/src/arch/smiv.c) and the graph scheduler
(src/nnet_lib/src/core/scheduler.h) of the smaug repository.

Machine floats are idealised as rationals: the datapath only adds and
multiplies, so the statements proved here concern the algebraic and
indexing structure of the computation, not rounding.  Flat float buffers
are modelled as `List ℚ` (written through `List.set`) where the code
writes to them, and as functions `ℕ → ℚ` where it only reads.
-/

/-- Number of float lanes of one `v8fp_t` vector register: the source
initialises these registers with eight explicit zero lanes. -/
def VECTOR_SIZE : ℕ := 8

/-- Lanes processed per multiply-accumulate step by one pipe; the weights
buffer of `conv_macc_datapath_simd_fxp` holds two `DATAPATH_WIDTH` halves
of one 8-lane vector, so `DATAPATH_WIDTH = 4`. -/
def DATAPATH_WIDTH : ℕ := 4

/-- Total scalar lanes of one shift register.  The pipes are declared as
`v8fp_t reg[2]`, i.e. `SR_SIZE = SHIFT_REG_SIZE/VECTOR_SIZE = 2`. -/
def SHIFT_REG_SIZE : ℕ := 16

/-- Modelled from the spec: the `FRAC_CEIL` ceiling-division macro of the
(missing) utility header, used for `input_fetches_per_row =
FRAC_CEIL(a_width, VECTOR_SIZE)`. -/
def FRAC_CEIL (a b : ℕ) : ℕ := a / b + (if a % b = 0 then 0 else 1)

/- ### Generic list lemmas used throughout -/

theorem getD_set_ne {α : Type} (d : α) :
    ∀ (l : List α) (i j : ℕ) (v : α), i ≠ j →
      (l.set i v).getD j d = l.getD j d
  | [], _, _, _, _ => by simp
  | _ :: _, 0, 0, _, h => absurd rfl h
  | a :: t, 0, j+1, v, _ => by simp [List.set]
  | a :: t, i+1, 0, v, _ => by simp [List.set]
  | a :: t, i+1, j+1, v, h => by
      have := getD_set_ne d t i j v (by omega)
      simpa [List.set] using this

theorem getD_set_self {α : Type} (d : α) :
    ∀ (l : List α) (i : ℕ) (v : α), i < l.length →
      (l.set i v).getD i d = v
  | [], i, v, h => by simp at h
  | a :: t, 0, v, _ => by simp [List.set]
  | a :: t, i+1, v, h => by
      have := getD_set_self d t i v (by simpa using h)
      simpa [List.set] using this

theorem getD_eq_get {α : Type} (d : α) (l : List α) (i : ℕ) (h : i < l.length) :
    l.getD i d = l.get ⟨i, h⟩ := by
  induction l generalizing i with
  | nil => simp at h
  | cons a t ih =>
      cases i with
      | zero => simp
      | succ i => simpa using ih i (by simpa using h)

theorem list_eq_of_getD {α : Type} (d : α) (l₁ l₂ : List α)
    (hlen : l₁.length = l₂.length)
    (h : ∀ i < l₁.length, l₁.getD i d = l₂.getD i d) : l₁ = l₂ := by
  apply List.ext_get hlen
  intro i h₁ h₂
  have := h i h₁
  rwa [getD_eq_get d l₁ i h₁, getD_eq_get d l₂ i h₂] at this

/-- Folding `acc + f x` over a list equals the initial value plus the sum. -/
theorem foldl_add_eq {α : Type} (f : α → ℚ) :
    ∀ (l : List α) (b : ℚ),
      l.foldl (fun acc x => acc + f x) b = b + (l.map f).sum
  | [], b => by simp
  | x :: t, b => by
      rw [List.foldl_cons, foldl_add_eq f t (b + f x)]
      simp [List.map_cons, List.sum_cons]
      ring

/-- A fold preserves an invariant that is preserved by each step. -/
theorem foldl_inv {α β : Type} (f : α → β → α) (P : α → Prop) :
    ∀ (l : List β) (b : α), P b → (∀ a x, P a → x ∈ l → P (f a x)) →
      P (l.foldl f b)
  | [], b, hb, _ => hb
  | x :: t, b, hb, hstep => by
      refine foldl_inv f P t (f b x) (hstep b x hb (by simp)) ?_
      intro a y ha hy
      exact hstep a y ha (by simp [hy])

/-- A fold whose step fixes the state leaves the state unchanged. -/
theorem foldl_fixed {α β : Type} (f : α → β → α) :
    ∀ (l : List β) (b : α), (∀ x, x ∈ l → f b x = b) → l.foldl f b = b
  | [], _, _ => rfl
  | x :: t, b, h => by
      rw [List.foldl_cons, h x (by simp)]
      exact foldl_fixed f t b (fun y hy => h y (by simp [hy]))

theorem length_foldl_set {α β : Type} (idxf : β → ℕ) (vf : β → α) :
    ∀ (l : List β) (b : List α),
      (l.foldl (fun res j => res.set (idxf j) (vf j)) b).length = b.length
  | [], _ => rfl
  | x :: t, b => by
      rw [List.foldl_cons, length_foldl_set idxf vf t]
      simp

theorem getD_foldl_set_ne {α β : Type} (d : α) (idxf : β → ℕ) (vf : β → α) :
    ∀ (l : List β) (b : List α) (k : ℕ), (∀ j ∈ l, idxf j ≠ k) →
      (l.foldl (fun res j => res.set (idxf j) (vf j)) b).getD k d = b.getD k d
  | [], _, _, _ => rfl
  | x :: t, b, k, h => by
      rw [List.foldl_cons,
          getD_foldl_set_ne d idxf vf t _ k (fun j hj => h j (by simp [hj]))]
      exact getD_set_ne d b (idxf x) k _ (h x (by simp))

/- ### Shift registers (convolution_simd.c lines 11-55)

The C code writes destination lane `sr0*VECTOR_SIZE + sr1 = sr` from
source lane `sr2*VECTOR_SIZE + sr3 = sr + shamt`, in place, for
`sr = 0, ..., SHIFT_REG_SIZE-1`; a register is modelled as the flat
16-lane list. -/

/-- Loop body of `shift_reg_lshift`: one in-place assignment. -/
def shift_reg_lshift_body (shamt : ℕ) (reg : List ℚ) (sr : ℕ) : List ℚ :=
  reg.set sr (if sr + shamt < SHIFT_REG_SIZE then reg.getD (sr + shamt) 0 else 0)

/-- Embedding of `shift_reg_simd_lshift` (lines 13-30). -/
def shift_reg_simd_lshift (reg : List ℚ) (shamt : ℕ) : List ℚ :=
  (List.range SHIFT_REG_SIZE).foldl (shift_reg_lshift_body shamt) reg

/-- Loop body of `shift_regs_lshift`: the same assignment applied to the
two registers of the pair within a single iteration. -/
def shift_regs_lshift_body (shamt : ℕ) (p : List ℚ × List ℚ) (sr : ℕ) :
    List ℚ × List ℚ :=
  (p.1.set sr (if sr + shamt < SHIFT_REG_SIZE then p.1.getD (sr + shamt) 0 else 0),
   p.2.set sr (if sr + shamt < SHIFT_REG_SIZE then p.2.getD (sr + shamt) 0 else 0))

/-- Embedding of `shift_regs_simd_lshift` (lines 34-55). -/
def shift_regs_simd_lshift (reg0 reg1 : List ℚ) (shamt : ℕ) :
    List ℚ × List ℚ :=
  (List.range SHIFT_REG_SIZE).foldl (shift_regs_lshift_body shamt) (reg0, reg1)

/-- The in-place left-shift loop, run over the first `t` destination lanes,
has already rewritten lanes below `t` and not yet touched lanes from `t`
up.  Sources sit at `i + shamt ≥ i`, so they are always still unwritten:
this is the read-after-write argument for the C loop. -/
theorem shift_reg_aux_spec (reg : List ℚ) (shamt : ℕ)
    (hlen : reg.length = SHIFT_REG_SIZE) :
    ∀ t, t ≤ SHIFT_REG_SIZE →
      ((List.range t).foldl (shift_reg_lshift_body shamt) reg).length = SHIFT_REG_SIZE ∧
      (∀ i, t ≤ i →
        ((List.range t).foldl (shift_reg_lshift_body shamt) reg).getD i 0 = reg.getD i 0) ∧
      (∀ i < t,
        ((List.range t).foldl (shift_reg_lshift_body shamt) reg).getD i 0 =
          if i + shamt < SHIFT_REG_SIZE then reg.getD (i + shamt) 0 else 0) := by
  intro t
  induction t with
  | zero => exact fun _ => ⟨hlen, fun _ _ => rfl, fun i hi => absurd hi (by omega)⟩
  | succ t ih =>
      intro ht
      obtain ⟨ihlen, ihhi, ihlo⟩ := ih (by omega)
      rw [List.range_succ, List.foldl_append, List.foldl_cons, List.foldl_nil]
      set prev := (List.range t).foldl (shift_reg_lshift_body shamt) reg with hprev
      have hbody : shift_reg_lshift_body shamt prev t =
          prev.set t (if t + shamt < SHIFT_REG_SIZE then prev.getD (t + shamt) 0 else 0) := rfl
      refine ⟨?_, ?_, ?_⟩
      · rw [hbody]; simpa using ihlen
      · intro i hi
        rw [hbody, getD_set_ne 0 prev t i _ (by omega)]
        exact ihhi i (by omega)
      · intro i hi
        rcases Nat.lt_or_ge i t with hit | hit
        · rw [hbody, getD_set_ne 0 prev t i _ (by omega)]
          exact ihlo i hit
        · have hieq : i = t := by omega
          subst hieq
          rw [hbody, getD_set_self 0 prev i _ (by omega)]
          by_cases hsrc : i + shamt < SHIFT_REG_SIZE
          · simp only [if_pos hsrc]
            exact ihhi (i + shamt) (by omega)
          · simp only [if_neg hsrc]

/-- Pointwise description of a full left shift. -/
theorem shift_reg_getD (reg : List ℚ) (shamt : ℕ)
    (hlen : reg.length = SHIFT_REG_SIZE) :
    (shift_reg_simd_lshift reg shamt).length = SHIFT_REG_SIZE ∧
    ∀ i < SHIFT_REG_SIZE,
      (shift_reg_simd_lshift reg shamt).getD i 0 =
        if i + shamt < SHIFT_REG_SIZE then reg.getD (i + shamt) 0 else 0 := by
  obtain ⟨h1, _, h3⟩ := shift_reg_aux_spec reg shamt hlen SHIFT_REG_SIZE le_rfl
  exact ⟨h1, h3⟩

/-- The paired shift is the single shift applied to each component. -/
theorem shift_regs_eq_pair (reg0 reg1 : List ℚ) (shamt : ℕ) :
    shift_regs_simd_lshift reg0 reg1 shamt =
      (shift_reg_simd_lshift reg0 shamt, shift_reg_simd_lshift reg1 shamt) := by
  show (List.range SHIFT_REG_SIZE).foldl (shift_regs_lshift_body shamt) (reg0, reg1) = _
  have : ∀ (l : List ℕ) (p : List ℚ × List ℚ),
      l.foldl (shift_regs_lshift_body shamt) p =
        (l.foldl (shift_reg_lshift_body shamt) p.1,
         l.foldl (shift_reg_lshift_body shamt) p.2) := by
    intro l
    induction l with
    | nil => intro p; rfl
    | cons x t iht =>
        intro p
        rw [List.foldl_cons, List.foldl_cons, List.foldl_cons, iht]
        rfl
  exact this _ (reg0, reg1)

/-- C8: viewing a shift register as one flat array of `SHIFT_REG_SIZE`
lanes spanning its vector units, `shift_reg_simd_lshift reg shamt` sets
lane `i` to the old value of lane `i + shamt` when `i + shamt <
SHIFT_REG_SIZE` and to zero otherwise; consequently shifting by `0` is the
identity and shifting by any amount `≥ SHIFT_REG_SIZE` yields all zeros;
`shift_regs_simd_lshift` applies the same transformation to both of its
registers. -/
theorem shift_reg_simd_lshift_spec (reg : List ℚ) (shamt : ℕ)
    (hlen : reg.length = SHIFT_REG_SIZE) :
    (∀ i < SHIFT_REG_SIZE,
      (shift_reg_simd_lshift reg shamt).getD i 0 =
        if i + shamt < SHIFT_REG_SIZE then reg.getD (i + shamt) 0 else 0) ∧
    shift_reg_simd_lshift reg 0 = reg ∧
    (∀ s, SHIFT_REG_SIZE ≤ s →
      shift_reg_simd_lshift reg s = List.replicate SHIFT_REG_SIZE 0) ∧
    (∀ reg1, shift_regs_simd_lshift reg reg1 shamt =
      (shift_reg_simd_lshift reg shamt, shift_reg_simd_lshift reg1 shamt)) := by
  refine ⟨(shift_reg_getD reg shamt hlen).2, ?_, ?_, fun reg1 => shift_regs_eq_pair reg reg1 shamt⟩
  · obtain ⟨hl, hp⟩ := shift_reg_getD reg 0 hlen
    refine list_eq_of_getD 0 _ _ (by rw [hl, hlen]) ?_
    intro i hi
    rw [hl] at hi
    rw [hp i hi, if_pos (by omega)]
    simp
  · intro s hs
    obtain ⟨hl, hp⟩ := shift_reg_getD reg s hlen
    refine list_eq_of_getD 0 _ _ (by simp [hl]) ?_
    intro i hi
    rw [hl] at hi
    rw [hp i hi, if_neg (by omega)]
    simp [List.getD_eq_getElem?_getD, List.getElem?_replicate, hi]

/-- Witness for C8 at a concrete 16-lane register and shift amount 5. -/
theorem shift_reg_simd_lshift_spec_witness :
    ([1, 2, 3, 4, 5, 6, 7, 8, 9, 10, 11, 12, 13, 14, 15, 16] : List ℚ).length
        = SHIFT_REG_SIZE ∧
    ((∀ i < SHIFT_REG_SIZE,
      (shift_reg_simd_lshift [1, 2, 3, 4, 5, 6, 7, 8, 9, 10, 11, 12, 13, 14, 15, 16] 5).getD i 0 =
        if i + 5 < SHIFT_REG_SIZE
        then ([1, 2, 3, 4, 5, 6, 7, 8, 9, 10, 11, 12, 13, 14, 15, 16] : List ℚ).getD (i + 5) 0
        else 0) ∧
    shift_reg_simd_lshift [1, 2, 3, 4, 5, 6, 7, 8, 9, 10, 11, 12, 13, 14, 15, 16] 0 =
      [1, 2, 3, 4, 5, 6, 7, 8, 9, 10, 11, 12, 13, 14, 15, 16] ∧
    (∀ s, SHIFT_REG_SIZE ≤ s →
      shift_reg_simd_lshift [1, 2, 3, 4, 5, 6, 7, 8, 9, 10, 11, 12, 13, 14, 15, 16] s =
        List.replicate SHIFT_REG_SIZE 0) ∧
    (∀ reg1, shift_regs_simd_lshift [1, 2, 3, 4, 5, 6, 7, 8, 9, 10, 11, 12, 13, 14, 15, 16] reg1 5 =
      (shift_reg_simd_lshift [1, 2, 3, 4, 5, 6, 7, 8, 9, 10, 11, 12, 13, 14, 15, 16] 5,
       shift_reg_simd_lshift reg1 5))) :=
  ⟨by decide, shift_reg_simd_lshift_spec _ 5 (by decide)⟩

/- ### Partial-sum merge unit (convolution_simd.c lines 99-122) -/

/-- Embedding of `merge_psums_simd_fxp`: `result_tmp` starts at zero; in
double-throughput mode lanes `2i`/`2i+1` accumulate `psums_0[i]`/
`psums_1[i]`, otherwise lane `i` accumulates `psums_0[i] + psums_1[i]`. -/
def merge_psums_simd_fxp (psums_0 psums_1 : List ℚ) (double_tp : Bool) :
    List ℚ :=
  let result_tmp : List ℚ := List.replicate VECTOR_SIZE 0
  if double_tp then
    (List.range (VECTOR_SIZE / 2)).foldl (fun r i =>
      let r1 := r.set (2 * i) (r.getD (2 * i) 0 + psums_0.getD i 0)
      r1.set (2 * i + 1) (r1.getD (2 * i + 1) 0 + psums_1.getD i 0)) result_tmp
  else
    (List.range VECTOR_SIZE).foldl (fun r i =>
      r.set i (r.getD i 0 + (psums_0.getD i 0 + psums_1.getD i 0))) result_tmp

/-- C1: `merge_psums_simd_fxp` is a pure function of its arguments; in
double-throughput mode it interleaves (`result[2i] = psums_0[i]`,
`result[2i+1] = psums_1[i]` for `i < VECTOR_SIZE/2`), otherwise it sums
elementwise (`result[i] = psums_0[i] + psums_1[i]` for `i < VECTOR_SIZE`);
two calls on identical inputs give identical outputs. -/
theorem merge_psums_simd_fxp_spec (psums_0 psums_1 : List ℚ) :
    (∀ i < VECTOR_SIZE / 2,
      (merge_psums_simd_fxp psums_0 psums_1 true).getD (2 * i) 0 =
        psums_0.getD i 0 ∧
      (merge_psums_simd_fxp psums_0 psums_1 true).getD (2 * i + 1) 0 =
        psums_1.getD i 0) ∧
    (∀ i < VECTOR_SIZE,
      (merge_psums_simd_fxp psums_0 psums_1 false).getD i 0 =
        psums_0.getD i 0 + psums_1.getD i 0) ∧
    (∀ double_tp : Bool,
      merge_psums_simd_fxp psums_0 psums_1 double_tp =
        merge_psums_simd_fxp psums_0 psums_1 double_tp) := by
  refine ⟨?_, ?_, fun _ => rfl⟩
  · intro i hi
    have h4 : VECTOR_SIZE / 2 = 4 := rfl
    rw [h4] at hi
    interval_cases i <;>
      constructor <;>
      · simp [merge_psums_simd_fxp, VECTOR_SIZE, List.range_succ, List.replicate]
  · intro i hi
    have h8 : VECTOR_SIZE = 8 := rfl
    rw [h8] at hi
    interval_cases i <;>
      simp [merge_psums_simd_fxp, VECTOR_SIZE, List.range_succ, List.replicate]

/-- Witness for C1 at two concrete partial-sum vectors. -/
theorem merge_psums_simd_fxp_spec_witness :
    (∀ i < VECTOR_SIZE / 2,
      (merge_psums_simd_fxp [1, 2, 3, 4, 5, 6, 7, 8] [9, 10, 11, 12, 13, 14, 15, 16] true).getD (2 * i) 0 =
        ([1, 2, 3, 4, 5, 6, 7, 8] : List ℚ).getD i 0 ∧
      (merge_psums_simd_fxp [1, 2, 3, 4, 5, 6, 7, 8] [9, 10, 11, 12, 13, 14, 15, 16] true).getD (2 * i + 1) 0 =
        ([9, 10, 11, 12, 13, 14, 15, 16] : List ℚ).getD i 0) ∧
    (∀ i < VECTOR_SIZE,
      (merge_psums_simd_fxp [1, 2, 3, 4, 5, 6, 7, 8] [9, 10, 11, 12, 13, 14, 15, 16] false).getD i 0 =
        ([1, 2, 3, 4, 5, 6, 7, 8] : List ℚ).getD i 0 +
          ([9, 10, 11, 12, 13, 14, 15, 16] : List ℚ).getD i 0) ∧
    (∀ double_tp : Bool,
      merge_psums_simd_fxp [1, 2, 3, 4, 5, 6, 7, 8] [9, 10, 11, 12, 13, 14, 15, 16] double_tp =
        merge_psums_simd_fxp [1, 2, 3, 4, 5, 6, 7, 8] [9, 10, 11, 12, 13, 14, 15, 16] double_tp) :=
  merge_psums_simd_fxp_spec [1, 2, 3, 4, 5, 6, 7, 8] [9, 10, 11, 12, 13, 14, 15, 16]

/- ### MACC datapath (convolution_simd.c lines 57-96) -/

/-- State mutated by `conv_macc_datapath_simd_fxp`: the two partial-sum
registers (`psums_tmp_0/1`, one 8-lane vector each) and the two 16-lane
pipe shift registers. -/
structure macc_state where
  p0 : List ℚ
  p1 : List ℚ
  r0 : List ℚ
  r1 : List ℚ

/-- Dot product of the `DATAPATH_WIDTH` weight lanes starting at `woff`
with the low `DATAPATH_WIDTH` lanes of a shift register. -/
def dot_dp (w : List ℚ) (woff : ℕ) (r : List ℚ) : ℚ :=
  ((List.range DATAPATH_WIDTH).map (fun j => w.getD (woff + j) 0 * r.getD j 0)).sum

/-- One iteration of the `conv2d_dp_outer` loop at index `psum_reg`:
accumulate the two pipes (low weight half against `pipe0`, high half
against `pipe1`), write pipe 0 unconditionally, write pipe 1 only while
`psum_reg < dp1_iters`, then shift both registers together. -/
def conv_macc_step (w : List ℚ) (dp_shamt dp1_iters : ℕ) (s : macc_state)
    (psum_reg : ℕ) : macc_state :=
  let accum_result_0 := (List.range DATAPATH_WIDTH).foldl
    (fun acc j => acc + w.getD j 0 * s.r0.getD j 0) (s.p0.getD psum_reg 0)
  let accum_result_1 := (List.range DATAPATH_WIDTH).foldl
    (fun acc j => acc + w.getD (j + DATAPATH_WIDTH) 0 * s.r1.getD j 0)
    (s.p1.getD psum_reg 0)
  let regs := shift_regs_simd_lshift s.r0 s.r1 dp_shamt
  { p0 := s.p0.set psum_reg accum_result_0,
    p1 := if psum_reg < dp1_iters then s.p1.set psum_reg accum_result_1 else s.p1,
    r0 := regs.1,
    r1 := regs.2 }

/-- Embedding of `conv_macc_datapath_simd_fxp` (lines 58-96). -/
def conv_macc_datapath_simd_fxp (weights_buffer pipe0_shift_reg pipe1_shift_reg : List ℚ)
    (dp_shamt dp0_iters dp1_iters : ℕ) (psums_0 psums_1 : List ℚ) : macc_state :=
  (List.range dp0_iters).foldl (conv_macc_step weights_buffer dp_shamt dp1_iters)
    ⟨psums_0, psums_1, pipe0_shift_reg, pipe1_shift_reg⟩

/-- Register state after `t` lockstep shifts by `shamt`. -/
def shift_iter (shamt t : ℕ) (reg : List ℚ) : List ℚ :=
  (fun r => shift_reg_simd_lshift r shamt)^[t] reg

/-- Loop invariant of the `conv2d_dp_outer` loop: after `t` iterations the
shift registers have advanced `t` times, psum entries below `t` carry one
dot-product increment (pipe 1 only below `dp1_iters`), and entries from
`t` up are untouched. -/
theorem conv_macc_aux (w r0 r1 p0 p1 : List ℚ) (shamt d1 : ℕ)
    (hp0 : p0.length = VECTOR_SIZE) (hp1 : p1.length = VECTOR_SIZE) :
    ∀ t, t ≤ VECTOR_SIZE →
      ((List.range t).foldl (conv_macc_step w shamt d1) ⟨p0, p1, r0, r1⟩).p0.length = VECTOR_SIZE ∧
      ((List.range t).foldl (conv_macc_step w shamt d1) ⟨p0, p1, r0, r1⟩).p1.length = VECTOR_SIZE ∧
      ((List.range t).foldl (conv_macc_step w shamt d1) ⟨p0, p1, r0, r1⟩).r0 = shift_iter shamt t r0 ∧
      ((List.range t).foldl (conv_macc_step w shamt d1) ⟨p0, p1, r0, r1⟩).r1 = shift_iter shamt t r1 ∧
      (∀ i, t ≤ i →
        ((List.range t).foldl (conv_macc_step w shamt d1) ⟨p0, p1, r0, r1⟩).p0.getD i 0 = p0.getD i 0) ∧
      (∀ i < t,
        ((List.range t).foldl (conv_macc_step w shamt d1) ⟨p0, p1, r0, r1⟩).p0.getD i 0 =
          p0.getD i 0 + dot_dp w 0 (shift_iter shamt i r0)) ∧
      (∀ i, t ≤ i ∨ d1 ≤ i →
        ((List.range t).foldl (conv_macc_step w shamt d1) ⟨p0, p1, r0, r1⟩).p1.getD i 0 = p1.getD i 0) ∧
      (∀ i < t, i < d1 →
        ((List.range t).foldl (conv_macc_step w shamt d1) ⟨p0, p1, r0, r1⟩).p1.getD i 0 =
          p1.getD i 0 + dot_dp w DATAPATH_WIDTH (shift_iter shamt i r1)) := by
  intro t
  induction t with
  | zero =>
      exact fun _ => ⟨hp0, hp1, rfl, rfl, fun _ _ => rfl,
        fun i hi => absurd hi (by omega), fun _ _ => rfl,
        fun i hi => absurd hi (by omega)⟩
  | succ t ih =>
      intro ht
      obtain ⟨ihl0, ihl1, ihr0, ihr1, ihp0hi, ihp0lo, ihp1hi, ihp1lo⟩ := ih (by omega)
      rw [List.range_succ, List.foldl_append, List.foldl_cons, List.foldl_nil]
      set prev := (List.range t).foldl (conv_macc_step w shamt d1) (⟨p0, p1, r0, r1⟩ : macc_state) with hprev
      have haccum0 : (List.range DATAPATH_WIDTH).foldl
          (fun acc j => acc + w.getD j 0 * prev.r0.getD j 0) (prev.p0.getD t 0) =
          p0.getD t 0 + dot_dp w 0 (shift_iter shamt t r0) := by
        rw [foldl_add_eq (fun j => w.getD j 0 * prev.r0.getD j 0) _ _,
            ihp0hi t le_rfl, ihr0]
        unfold dot_dp
        norm_num
      have haccum1 : (List.range DATAPATH_WIDTH).foldl
          (fun acc j => acc + w.getD (j + DATAPATH_WIDTH) 0 * prev.r1.getD j 0) (prev.p1.getD t 0) =
          p1.getD t 0 + dot_dp w DATAPATH_WIDTH (shift_iter shamt t r1) := by
        rw [foldl_add_eq (fun j => w.getD (j + DATAPATH_WIDTH) 0 * prev.r1.getD j 0) _ _,
            ihp1hi t (Or.inl le_rfl), ihr1]
        unfold dot_dp
        norm_num [Nat.add_comm]
      have hstep : conv_macc_step w shamt d1 prev t =
          { p0 := prev.p0.set t (p0.getD t 0 + dot_dp w 0 (shift_iter shamt t r0)),
            p1 := if t < d1 then
                prev.p1.set t (p1.getD t 0 + dot_dp w DATAPATH_WIDTH (shift_iter shamt t r1))
              else prev.p1,
            r0 := shift_reg_simd_lshift prev.r0 shamt,
            r1 := shift_reg_simd_lshift prev.r1 shamt } := by
        unfold conv_macc_step
        rw [shift_regs_eq_pair, haccum0, haccum1]
      rw [hstep]
      refine ⟨by simpa using ihl0, ?_, ?_, ?_, ?_, ?_, ?_, ?_⟩
      · by_cases hd : t < d1 <;> simp [hd, ihl1]
      · simp only [ihr0, shift_iter, Function.iterate_succ_apply']
      · simp only [ihr1, shift_iter, Function.iterate_succ_apply']
      · intro i hi
        simp only []
        rw [getD_set_ne 0 prev.p0 t i _ (by omega)]
        exact ihp0hi i (by omega)
      · intro i hi
        rcases Nat.lt_or_ge i t with hit | hit
        · simp only []
          rw [getD_set_ne 0 prev.p0 t i _ (by omega)]
          exact ihp0lo i hit
        · have : i = t := by omega
          subst this
          simp only []
          rw [getD_set_self 0 prev.p0 i _ (by omega)]
      · intro i hi
        by_cases hd : t < d1
        · simp only [if_pos hd]
          rcases hi with hi | hi
          · rw [getD_set_ne 0 prev.p1 t i _ (by omega)]
            exact ihp1hi i (Or.inl (by omega))
          · rw [getD_set_ne 0 prev.p1 t i _ (by omega)]
            exact ihp1hi i (Or.inr hi)
        · simp only [if_neg hd]
          rcases hi with hi | hi
          · exact ihp1hi i (Or.inl (by omega))
          · exact ihp1hi i (Or.inr hi)
      · intro i hi hid
        rcases Nat.lt_or_ge i t with hit | hit
        · by_cases hd : t < d1
          · simp only [if_pos hd]
            rw [getD_set_ne 0 prev.p1 t i _ (by omega)]
            exact ihp1lo i hit hid
          · simp only [if_neg hd]
            exact ihp1lo i hit hid
        · have : i = t := by omega
          subst this
          simp only [if_pos hid]
          rw [getD_set_self 0 prev.p1 i _ (by omega)]

/-- C2: for every call of the datapath with `dp1_iters ≤ dp0_iters` (and
iteration counts bounded by the psum register width, as at every call
site), psum 0 entry `i < dp0_iters` is incremented by the dot product of
weight lanes `[0, DATAPATH_WIDTH)` with the current (i.e. `i`-times
shifted) pipe-0 register lanes `[0, DATAPATH_WIDTH)`; psum 1 entry
`i < dp1_iters` likewise with weight lanes `[DATAPATH_WIDTH,
2*DATAPATH_WIDTH)` and the pipe-1 register; psum 1 entries at `i ≥
dp1_iters` stay unchanged even while pipe 0 continues; and after each
iteration both shift registers have advanced in lockstep by `dp_shamt`. -/
theorem conv_macc_datapath_simd_fxp_spec
    (weights_buffer pipe0_shift_reg pipe1_shift_reg psums_0 psums_1 : List ℚ)
    (dp_shamt dp0_iters dp1_iters : ℕ)
    (h01 : dp1_iters ≤ dp0_iters) (h0 : dp0_iters ≤ VECTOR_SIZE)
    (hp0 : psums_0.length = VECTOR_SIZE) (hp1 : psums_1.length = VECTOR_SIZE) :
    (∀ i < dp0_iters,
      (conv_macc_datapath_simd_fxp weights_buffer pipe0_shift_reg pipe1_shift_reg
        dp_shamt dp0_iters dp1_iters psums_0 psums_1).p0.getD i 0 =
          psums_0.getD i 0 + dot_dp weights_buffer 0 (shift_iter dp_shamt i pipe0_shift_reg)) ∧
    (∀ i < dp1_iters,
      (conv_macc_datapath_simd_fxp weights_buffer pipe0_shift_reg pipe1_shift_reg
        dp_shamt dp0_iters dp1_iters psums_0 psums_1).p1.getD i 0 =
          psums_1.getD i 0 +
            dot_dp weights_buffer DATAPATH_WIDTH (shift_iter dp_shamt i pipe1_shift_reg)) ∧
    (∀ i, dp1_iters ≤ i →
      (conv_macc_datapath_simd_fxp weights_buffer pipe0_shift_reg pipe1_shift_reg
        dp_shamt dp0_iters dp1_iters psums_0 psums_1).p1.getD i 0 = psums_1.getD i 0) ∧
    (∀ t ≤ dp0_iters,
      ((List.range t).foldl (conv_macc_step weights_buffer dp_shamt dp1_iters)
        ⟨psums_0, psums_1, pipe0_shift_reg, pipe1_shift_reg⟩).r0 =
          shift_iter dp_shamt t pipe0_shift_reg ∧
      ((List.range t).foldl (conv_macc_step weights_buffer dp_shamt dp1_iters)
        ⟨psums_0, psums_1, pipe0_shift_reg, pipe1_shift_reg⟩).r1 =
          shift_iter dp_shamt t pipe1_shift_reg) := by
  obtain ⟨_, _, _, _, _, hp0lo, hp1hi, hp1lo⟩ :=
    conv_macc_aux weights_buffer pipe0_shift_reg pipe1_shift_reg psums_0 psums_1
      dp_shamt dp1_iters hp0 hp1 dp0_iters h0
  refine ⟨hp0lo, ?_, fun i hi => hp1hi i (Or.inr hi), ?_⟩
  · intro i hi
    exact hp1lo i (by omega) hi
  · intro t ht
    obtain ⟨_, _, hr0, hr1, _, _, _, _⟩ :=
      conv_macc_aux weights_buffer pipe0_shift_reg pipe1_shift_reg psums_0 psums_1
        dp_shamt dp1_iters hp0 hp1 t (by omega)
    exact ⟨hr0, hr1⟩

/-- Witness for C2: a concrete run with `dp0_iters = 2`, `dp1_iters = 1`. -/
theorem conv_macc_datapath_simd_fxp_spec_witness :
    ((1 : ℕ) ≤ 2 ∧ (2 : ℕ) ≤ VECTOR_SIZE ∧
      ([0, 0, 0, 0, 0, 0, 0, 0] : List ℚ).length = VECTOR_SIZE ∧
      ([1, 1, 1, 1, 1, 1, 1, 1] : List ℚ).length = VECTOR_SIZE) ∧
    ((∀ i < 2,
      (conv_macc_datapath_simd_fxp [1, 2, 3, 4, 5, 6, 7, 8]
        [1, 0, 2, 0, 3, 0, 4, 0, 5, 0, 6, 0, 7, 0, 8, 0]
        [9, 0, 9, 0, 9, 0, 9, 0, 9, 0, 9, 0, 9, 0, 9, 0]
        2 2 1 [0, 0, 0, 0, 0, 0, 0, 0] [1, 1, 1, 1, 1, 1, 1, 1]).p0.getD i 0 =
          ([0, 0, 0, 0, 0, 0, 0, 0] : List ℚ).getD i 0 +
            dot_dp [1, 2, 3, 4, 5, 6, 7, 8] 0
              (shift_iter 2 i [1, 0, 2, 0, 3, 0, 4, 0, 5, 0, 6, 0, 7, 0, 8, 0])) ∧
    (∀ i < 1,
      (conv_macc_datapath_simd_fxp [1, 2, 3, 4, 5, 6, 7, 8]
        [1, 0, 2, 0, 3, 0, 4, 0, 5, 0, 6, 0, 7, 0, 8, 0]
        [9, 0, 9, 0, 9, 0, 9, 0, 9, 0, 9, 0, 9, 0, 9, 0]
        2 2 1 [0, 0, 0, 0, 0, 0, 0, 0] [1, 1, 1, 1, 1, 1, 1, 1]).p1.getD i 0 =
          ([1, 1, 1, 1, 1, 1, 1, 1] : List ℚ).getD i 0 +
            dot_dp [1, 2, 3, 4, 5, 6, 7, 8] DATAPATH_WIDTH
              (shift_iter 2 i [9, 0, 9, 0, 9, 0, 9, 0, 9, 0, 9, 0, 9, 0, 9, 0])) ∧
    (∀ i, 1 ≤ i →
      (conv_macc_datapath_simd_fxp [1, 2, 3, 4, 5, 6, 7, 8]
        [1, 0, 2, 0, 3, 0, 4, 0, 5, 0, 6, 0, 7, 0, 8, 0]
        [9, 0, 9, 0, 9, 0, 9, 0, 9, 0, 9, 0, 9, 0, 9, 0]
        2 2 1 [0, 0, 0, 0, 0, 0, 0, 0] [1, 1, 1, 1, 1, 1, 1, 1]).p1.getD i 0 =
          ([1, 1, 1, 1, 1, 1, 1, 1] : List ℚ).getD i 0) ∧
    (∀ t ≤ 2,
      ((List.range t).foldl (conv_macc_step [1, 2, 3, 4, 5, 6, 7, 8] 2 1)
        ⟨[0, 0, 0, 0, 0, 0, 0, 0], [1, 1, 1, 1, 1, 1, 1, 1],
          [1, 0, 2, 0, 3, 0, 4, 0, 5, 0, 6, 0, 7, 0, 8, 0],
          [9, 0, 9, 0, 9, 0, 9, 0, 9, 0, 9, 0, 9, 0, 9, 0]⟩).r0 =
          shift_iter 2 t [1, 0, 2, 0, 3, 0, 4, 0, 5, 0, 6, 0, 7, 0, 8, 0] ∧
      ((List.range t).foldl (conv_macc_step [1, 2, 3, 4, 5, 6, 7, 8] 2 1)
        ⟨[0, 0, 0, 0, 0, 0, 0, 0], [1, 1, 1, 1, 1, 1, 1, 1],
          [1, 0, 2, 0, 3, 0, 4, 0, 5, 0, 6, 0, 7, 0, 8, 0],
          [9, 0, 9, 0, 9, 0, 9, 0, 9, 0, 9, 0, 9, 0, 9, 0]⟩).r1 =
          shift_iter 2 t [9, 0, 9, 0, 9, 0, 9, 0, 9, 0, 9, 0, 9, 0, 9, 0])) :=
  ⟨⟨by decide, by decide, by decide, by decide⟩,
    conv_macc_datapath_simd_fxp_spec [1, 2, 3, 4, 5, 6, 7, 8]
      [1, 0, 2, 0, 3, 0, 4, 0, 5, 0, 6, 0, 7, 0, 8, 0]
      [9, 0, 9, 0, 9, 0, 9, 0, 9, 0, 9, 0, 9, 0, 9, 0]
      [0, 0, 0, 0, 0, 0, 0, 0] [1, 1, 1, 1, 1, 1, 1, 1]
      2 2 1 (by decide) (by decide) (by decide) (by decide)⟩

/- ### Convolution kernel driver (convolution_simd.c lines 136-299) -/

/-- Dimension block of a layer descriptor (rows, cols, height and the
trailing alignment pad of a row). -/
structure dims_t where
  rows : ℕ
  cols : ℕ
  height : ℕ
  align_pad : ℕ

/-- Layer descriptor fields consumed by the embedded code.  `field_size`
and `c_padding` are only read by the SMIV dispatch layer (arch/smiv.c). -/
structure layer_t where
  inputs : dims_t
  outputs : dims_t
  weights : dims_t
  field_stride : ℕ
  field_size : ℕ
  c_padding : ℕ

def a_height (l : layer_t) : ℕ := l.inputs.rows

def a_width (l : layer_t) : ℕ := l.inputs.cols

def a_pad (l : layer_t) : ℕ := l.inputs.align_pad

def a_padded_width (l : layer_t) : ℕ := a_width l + a_pad l

def result_height (l : layer_t) : ℕ := l.outputs.rows

def result_width (l : layer_t) : ℕ := l.outputs.cols

def result_pad (l : layer_t) : ℕ := l.outputs.align_pad

def result_padded_width (l : layer_t) : ℕ := result_width l + result_pad l

def k_width (l : layer_t) : ℕ := l.weights.cols

def k_height (l : layer_t) : ℕ := l.inputs.height

def k_pad (l : layer_t) : ℕ := l.weights.align_pad

def k_stride (l : layer_t) : ℕ := l.field_stride

def k_padded_width (l : layer_t) : ℕ := k_width l + k_pad l

def row_stride (l : layer_t) : ℕ := k_stride l

/-- `double_tp = k_width < DATAPATH_WIDTH` (line 165). -/
def double_tp (l : layer_t) : Bool := decide (k_width l < DATAPATH_WIDTH)

def init_shamt (l : layer_t) : ℕ :=
  if double_tp l then k_stride l else DATAPATH_WIDTH

def dp_shamt (l : layer_t) : ℕ :=
  if double_tp l then k_stride l * 2 else k_stride l

def input_fetches_per_row (l : layer_t) : ℕ := FRAC_CEIL (a_width l) VECTOR_SIZE

def last_input_pixel_start_col (l : layer_t) : ℕ := result_width l * k_stride l

/-- Line 170: `last_input_pixel_start_col > (input_fetches_per_row - 1) *
VECTOR_SIZE`.  The C operand is unsigned; the natural subtraction here
agrees with it whenever `input_fetches_per_row ≥ 1`, i.e. `a_width ≥ 1`. -/
def has_boundary_case (l : layer_t) : Bool :=
  decide ((input_fetches_per_row l - 1) * VECTOR_SIZE < last_input_pixel_start_col l)

/-- Lines 175-183: the `(stride, double_tp)` table for the number of
partial sums produced per `VECTOR_SIZE` activations per datapath; any
stride outside {1, 2, 4} falls through to `0`. -/
def max_psums_per_act (l : layer_t) : ℕ :=
  if k_stride l = 1 then (if double_tp l then DATAPATH_WIDTH else DATAPATH_WIDTH * 2)
  else if k_stride l = 2 then (if double_tp l then DATAPATH_WIDTH / 2 else DATAPATH_WIDTH)
  else if k_stride l = 4 then DATAPATH_WIDTH / 2
  else 0

/-- Line 185: `end_row = a_height - k_width + 1` in C int arithmetic; the
natural-number form `a_height + 1 - k_width` truncates at zero exactly
when the C row loop performs no iteration. -/
def end_row (l : layer_t) : ℕ := a_height l + 1 - k_width l

def end_col (l : layer_t) : ℕ :=
  if has_boundary_case l then input_fetches_per_row l
  else input_fetches_per_row l - 1

def end_kern (l : layer_t) : ℕ := k_width l

def end_col_marker (l : layer_t) : ℕ := input_fetches_per_row l - 1

/-- Iterations of the `conv2d_row` loop (`in_row = 0; in_row < end_row;
in_row += row_stride`), assuming `row_stride ≥ 1`. -/
def n_row_iters (l : layer_t) : ℕ := FRAC_CEIL (end_row l) (row_stride l)

/-- Flat scalar index of lane 0 of `_a[img][chan][row][vec]` under
`VEC_ARRAY_4D(v8fp_t, _a, a, k_height, a_height, a_padded_width)`: each
row holds `a_padded_width / VECTOR_SIZE` vectors. -/
def a_vec_index (l : layer_t) (img chan row vec : ℕ) : ℕ :=
  (((img * k_height l + chan) * a_height l + row) *
    (a_padded_width l / VECTOR_SIZE) + vec) * VECTOR_SIZE

/-- Flat scalar index of lane 0 of `_kernels[kern][chan][kern_row][vec]`
under `VEC_ARRAY_4D(v8fp_t, _kernels, kernels, k_height, k_width,
k_padded_width)`. -/
def k_vec_index (l : layer_t) (kern chan kern_row vec : ℕ) : ℕ :=
  (((kern * k_height l + chan) * k_width l + kern_row) *
    (k_padded_width l / VECTOR_SIZE) + vec) * VECTOR_SIZE

/-- Flat scalar index of `_result[chan][row][vec][j]` under
`VEC_ARRAY_3D(v8fp_t, _result, result, result_height,
result_padded_width)`. -/
def result_scalar_index (l : layer_t) (chan row vec j : ℕ) : ℕ :=
  ((chan * result_height l + row) *
    (result_padded_width l / VECTOR_SIZE) + vec) * VECTOR_SIZE + j

/-- One `v8fp_t` load from a flat read-only buffer. -/
def load_vec (f : ℕ → ℚ) (base : ℕ) : List ℚ :=
  (List.range VECTOR_SIZE).map fun j => f (base + j)

/-- Lines 203-216: the per-group compute schedule `(dp0_iters, dp1_iters,
total_outpx)`. -/
structure dp_sched where
  dp0_iters : ℕ
  dp1_iters : ℕ
  total_outpx : ℕ

def conv_sched (l : layer_t) (out_col : ℕ) : dp_sched :=
  let remaining_cols := result_width l - out_col
  if double_tp l then
    let remaining_per_dp := remaining_cols / 2
    let remainder := remaining_cols % 2
    let dp0_iters := min (max_psums_per_act l) (remaining_per_dp + remainder)
    let dp1_iters := min (max_psums_per_act l) remaining_per_dp
    ⟨dp0_iters, dp1_iters, dp0_iters + dp1_iters⟩
  else
    let dp0_iters := min (max_psums_per_act l) remaining_cols
    ⟨dp0_iters, dp0_iters, dp0_iters⟩

/-- Lines 234-242: both pipes load the vector at column `in_col` into
position 0; position 1 receives the vector at `in_col + 1` unless this is
the boundary case at the final fetch group (then it keeps its zero
initialisation). -/
def load_pipe_reg (l : layer_t) (a : ℕ → ℚ) (img chan row in_col : ℕ) :
    List ℚ :=
  load_vec a (a_vec_index l img chan row in_col) ++
    (if has_boundary_case l = true ∧ in_col = end_col_marker l then
      List.replicate VECTOR_SIZE 0
    else load_vec a (a_vec_index l img chan row (in_col + 1)))

/-- Lines 248-263: the weights buffer starts at zero; in double-throughput
mode the `k_width` weights are duplicated into both halves, otherwise the
first `min k_width VECTOR_SIZE` lanes are filled. -/
def load_weights_buffer (l : layer_t) (wgt_temp : List ℚ) : List ℚ :=
  if double_tp l then
    (List.range (k_width l)).foldl (fun b w =>
      (b.set w (wgt_temp.getD w 0)).set (DATAPATH_WIDTH + w) (wgt_temp.getD w 0))
      (List.replicate VECTOR_SIZE 0)
  else
    (List.range (min (k_width l) VECTOR_SIZE)).foldl (fun b w =>
      b.set w (wgt_temp.getD w 0)) (List.replicate VECTOR_SIZE 0)

/-- Lines 222-281: the `conv2d_kern_row` loop.  Per kernel row: load the
activation window into both pipes, load the weights row, pre-shift pipe 1
by `init_shamt`, and run the MACC datapath, threading the psum pair. -/
def conv_kern_rows (l : layer_t) (a kernels : ℕ → ℚ)
    (img kern chan in_row in_col dp0_iters dp1_iters : ℕ) :
    List ℚ × List ℚ :=
  (List.range (end_kern l)).foldl (fun ps kern_row =>
    let act_temp := load_pipe_reg l a img chan (in_row + kern_row) in_col
    let pipe0_shift_reg := act_temp
    let pipe1_shift_reg := act_temp
    let wgt_temp := load_vec kernels (k_vec_index l kern chan kern_row 0)
    let weights_buffer := load_weights_buffer l wgt_temp
    let pipe1_shift_reg := shift_reg_simd_lshift pipe1_shift_reg (init_shamt l)
    let M := conv_macc_datapath_simd_fxp weights_buffer pipe0_shift_reg
      pipe1_shift_reg (dp_shamt l) dp0_iters dp1_iters ps.1 ps.2
    (M.p0, M.p1))
    (List.replicate VECTOR_SIZE 0, List.replicate VECTOR_SIZE 0)

/-- Lines 201-295: one iteration of the `conv2d_col` loop.  The state is
`(out_col, result)`; the merged psums are committed to lanes
`[0, total_outpx)` of result vector `out_col / VECTOR_SIZE`, then
`out_col` advances and wraps to 0 once it reaches `result_width`. -/
def conv_col_group (l : layer_t) (a kernels : ℕ → ℚ)
    (img kern chan in_row out_row : ℕ) (st : ℕ × List ℚ) (in_col : ℕ) :
    ℕ × List ℚ :=
  let out_col := st.1
  let sched := conv_sched l out_col
  let ps := conv_kern_rows l a kernels img kern chan in_row in_col
    sched.dp0_iters sched.dp1_iters
  let final_psums := merge_psums_simd_fxp ps.1 ps.2 (double_tp l)
  let result2 := (List.range sched.total_outpx).foldl (fun res j =>
    res.set (result_scalar_index l chan out_row (out_col / VECTOR_SIZE) j)
      (final_psums.getD j 0)) st.2
  let out_col2 := out_col + sched.total_outpx
  (if result_width l ≤ out_col2 then 0 else out_col2, result2)

/-- Embedding of `convolution2d_smiv_1kernel_1channel_simd_fxp` (lines
136-299): row `r` of the `conv2d_row` loop reads input row `r *
row_stride` and produces output row `r`; each row runs the column loop
over `in_col ∈ [0, end_col)` starting from `out_col = 0`. -/
def convolution2d_smiv_1kernel_1channel_simd_fxp (a kernels : ℕ → ℚ)
    (img kern chan : ℕ) (curr_layer : layer_t) (result : List ℚ) : List ℚ :=
  (List.range (n_row_iters curr_layer)).foldl (fun res r =>
    ((List.range (end_col curr_layer)).foldl
      (conv_col_group curr_layer a kernels img kern chan (r * row_stride curr_layer) r)
      (0, res)).2) result

/-- With `max_psums_per_act = 0`, one column group schedules zero
iterations on both pipes, commits nothing and leaves `out_col` at 0. -/
theorem conv_col_group_max0 (l : layer_t) (a kernels : ℕ → ℚ)
    (img kern chan in_row out_row in_col : ℕ) (res : List ℚ)
    (hmax : max_psums_per_act l = 0) :
    conv_col_group l a kernels img kern chan in_row out_row (0, res) in_col =
      (0, res) := by
  have hsched : conv_sched l 0 = ⟨0, 0, 0⟩ := by
    unfold conv_sched
    by_cases hd : double_tp l <;> simp [hd, hmax, Nat.zero_min]
  unfold conv_col_group
  simp [hsched]

/-- A stride outside {1, 2, 4} makes the whole kernel a no-op on the
result buffer. -/
theorem conv2d_unsupported_stride_no_output (l : layer_t)
    (a kernels : ℕ → ℚ) (img kern chan : ℕ) (result : List ℚ)
    (h1 : k_stride l ≠ 1) (h2 : k_stride l ≠ 2) (h4 : k_stride l ≠ 4) :
    convolution2d_smiv_1kernel_1channel_simd_fxp a kernels img kern chan l result
      = result := by
  have hmax : max_psums_per_act l = 0 := by
    unfold max_psums_per_act
    simp [h1, h2, h4]
  unfold convolution2d_smiv_1kernel_1channel_simd_fxp
  refine foldl_fixed _ _ result ?_
  intro r _
  have hcols : (List.range (end_col l)).foldl
      (conv_col_group l a kernels img kern chan (r * row_stride l) r) (0, result)
      = (0, result) := by
    refine foldl_fixed _ _ (0, result) ?_
    intro ic _
    exact conv_col_group_max0 l a kernels img kern chan (r * row_stride l) r ic
      result hmax
  rw [hcols]

/-- Counterexample for C3: at stride 3 (unsupported) the kernel does not
fail fast; it completes normally and silently produces no output.  Here a
concrete stride-3 layer (8x8 input, 4x4 kernel, declared 2x2 output) with
all-ones activations and weights returns the result buffer unchanged. -/
theorem conv2d_stride3_no_failfast :
    convolution2d_smiv_1kernel_1channel_simd_fxp (fun _ => 1) (fun _ => 1) 0 0 0
      ⟨⟨8, 8, 1, 0⟩, ⟨2, 2, 1, 6⟩, ⟨4, 4, 1, 4⟩, 3, 4, 0⟩
      [1, 2, 3, 4, 5, 6, 7, 8, 9, 10, 11, 12, 13, 14, 15, 16] =
      [1, 2, 3, 4, 5, 6, 7, 8, 9, 10, 11, 12, 13, 14, 15, 16] := by decide

/-- C3 (amended): `max_psums_per_act` follows the `(stride, double_tp)`
table — stride 1 gives `DATAPATH_WIDTH` (double) / `2*DATAPATH_WIDTH`
(single), stride 2 gives `DATAPATH_WIDTH/2` / `DATAPATH_WIDTH`, stride 4
gives `DATAPATH_WIDTH/2` — and for every stride outside {1, 2, 4} (with
stride ≥ 1 so the row loop terminates) the value falls through to 0 and
the kernel silently commits no output, returning the result buffer
unchanged, with no fatal assertion. -/
theorem max_psums_per_act_spec (l : layer_t) :
    (k_stride l = 1 → max_psums_per_act l =
      if double_tp l then DATAPATH_WIDTH else 2 * DATAPATH_WIDTH) ∧
    (k_stride l = 2 → max_psums_per_act l =
      if double_tp l then DATAPATH_WIDTH / 2 else DATAPATH_WIDTH) ∧
    (k_stride l = 4 → max_psums_per_act l = DATAPATH_WIDTH / 2) ∧
    (k_stride l ≠ 1 → k_stride l ≠ 2 → k_stride l ≠ 4 →
      max_psums_per_act l = 0 ∧
      ∀ (a kernels : ℕ → ℚ) (img kern chan : ℕ) (result : List ℚ),
        convolution2d_smiv_1kernel_1channel_simd_fxp a kernels img kern chan l
          result = result) := by
  refine ⟨?_, ?_, ?_, ?_⟩
  · intro h
    unfold max_psums_per_act
    simp [h, Nat.mul_comm]
  · intro h
    unfold max_psums_per_act
    simp [h]
  · intro h
    unfold max_psums_per_act
    simp [h]
  · intro h1 h2 h4
    refine ⟨by unfold max_psums_per_act; simp [h1, h2, h4], ?_⟩
    intro a kernels img kern chan result
    exact conv2d_unsupported_stride_no_output l a kernels img kern chan result
      h1 h2 h4

/-- Witness for C3 (amended) at a concrete stride-5 layer. -/
theorem max_psums_per_act_spec_witness :
    ((5 : ℕ) ≠ 1 ∧ (5 : ℕ) ≠ 2 ∧ (5 : ℕ) ≠ 4) ∧
    (max_psums_per_act ⟨⟨8, 8, 1, 0⟩, ⟨1, 1, 1, 7⟩, ⟨4, 4, 1, 4⟩, 5, 4, 0⟩ = 0 ∧
      ∀ (a kernels : ℕ → ℚ) (img kern chan : ℕ) (result : List ℚ),
        convolution2d_smiv_1kernel_1channel_simd_fxp a kernels img kern chan
          ⟨⟨8, 8, 1, 0⟩, ⟨1, 1, 1, 7⟩, ⟨4, 4, 1, 4⟩, 5, 4, 0⟩ result = result) :=
  ⟨⟨by decide, by decide, by decide⟩,
    (max_psums_per_act_spec ⟨⟨8, 8, 1, 0⟩, ⟨1, 1, 1, 7⟩, ⟨4, 4, 1, 4⟩, 5, 4, 0⟩).2.2.2
      (by decide) (by decide) (by decide)⟩

/-- C5 evaluated at its failing input: a stride-2 layer (4x16 input, 4x4
kernel, declared 1x7 output, single-throughput) with an all-zero
activation buffer.  The commit loop writes lanes `[0, total_outpx)` of
result vector `out_col / VECTOR_SIZE`, dropping `out_col % VECTOR_SIZE`,
so the second column group (out_col = 4) re-writes columns 0-2 and output
columns 4-6 are never written: the initial value 5 at declared output
column 4 survives instead of being zeroed. -/
theorem conv2d_stride2_zero_input_gap :
    (convolution2d_smiv_1kernel_1channel_simd_fxp (fun _ => 0) (fun _ => 1) 0 0 0
      ⟨⟨4, 16, 1, 0⟩, ⟨1, 7, 1, 1⟩, ⟨4, 4, 1, 4⟩, 2, 4, 0⟩
      [0, 0, 0, 0, 5, 0, 0, 0]).getD 4 0 = 5 := by decide

/-- C4: the boundary case is detected once per call as `result_width *
k_stride > (input_fetches_per_row - 1) * VECTOR_SIZE` (the flag is a
single per-call constant of the layer); when the flag is set and the
column loop is at the final fetch group (`in_col = end_col_marker =
input_fetches_per_row - 1`), the position-1 shift-register load is
suppressed (position 1 keeps its zero initialisation instead of reading
the vector at `in_col + 1`); and consequently every activation load of
the column loop stays inside the padded input row: each address read lies
before the start of the next row.  `a_width ≥ 1` reflects the unsigned C
subtraction `input_fetches_per_row - 1`, and the second hypothesis states
that the alignment pad rounds the row up to at least
`input_fetches_per_row` whole vectors. -/
theorem conv2d_boundary_case_spec (l : layer_t) (a : ℕ → ℚ)
    (img chan row : ℕ) (hw : 1 ≤ a_width l)
    (hpad : input_fetches_per_row l ≤ a_padded_width l / VECTOR_SIZE) :
    (has_boundary_case l =
      decide (result_width l * k_stride l >
        (input_fetches_per_row l - 1) * VECTOR_SIZE)) ∧
    (has_boundary_case l = true →
      load_pipe_reg l a img chan row (end_col_marker l) =
        load_vec a (a_vec_index l img chan row (end_col_marker l)) ++
          List.replicate VECTOR_SIZE 0) ∧
    (∀ in_col < end_col l,
      (∀ j < VECTOR_SIZE,
        a_vec_index l img chan row in_col + j <
          a_vec_index l img chan (row + 1) 0) ∧
      (¬(has_boundary_case l = true ∧ in_col = end_col_marker l) →
        ∀ j < VECTOR_SIZE,
          a_vec_index l img chan row (in_col + 1) + j <
            a_vec_index l img chan (row + 1) 0)) := by
  have hF : 1 ≤ input_fetches_per_row l := by
    unfold input_fetches_per_row FRAC_CEIL a_width VECTOR_SIZE
    unfold a_width at hw
    by_cases h : l.inputs.cols % 8 = 0
    · rw [if_pos h]
      omega
    · rw [if_neg h]
      omega
  have hvec : ∀ v j, v < input_fetches_per_row l → j < VECTOR_SIZE →
      a_vec_index l img chan row v + j < a_vec_index l img chan (row + 1) 0 := by
    intro v j hv hj
    have hV : v < a_padded_width l / VECTOR_SIZE := lt_of_lt_of_le hv hpad
    unfold a_vec_index
    have hexp : ((img * k_height l + chan) * a_height l + (row + 1)) *
        (a_padded_width l / VECTOR_SIZE) =
        ((img * k_height l + chan) * a_height l + row) *
          (a_padded_width l / VECTOR_SIZE) + a_padded_width l / VECTOR_SIZE := by
      ring
    rw [hexp]
    have h8 : VECTOR_SIZE = 8 := rfl
    rw [h8] at hV hj ⊢
    omega
  refine ⟨rfl, ?_, ?_⟩
  · intro hb
    unfold load_pipe_reg
    simp [hb]
  · intro in_col hic
    cases hb : has_boundary_case l with
    | true =>
        have hecol : end_col l = input_fetches_per_row l := by
          unfold end_col
          simp [hb]
        rw [hecol] at hic
        refine ⟨fun j hj => hvec in_col j hic hj, ?_⟩
        intro hguard j hj
        have hmark : in_col ≠ end_col_marker l := by
          intro h
          exact hguard ⟨rfl, h⟩
        unfold end_col_marker at hmark
        exact hvec (in_col + 1) j (by omega) hj
    | false =>
        have hecol : end_col l = input_fetches_per_row l - 1 := by
          unfold end_col
          simp [hb]
        rw [hecol] at hic
        exact ⟨fun j hj => hvec in_col j (by omega) hj,
          fun _ j hj => hvec (in_col + 1) j (by omega) hj⟩

/-- Witness for C4 at a concrete boundary-case layer (6-wide input rows,
one fetch per row, pad 2). -/
theorem conv2d_boundary_case_spec_witness :
    ((1 : ℕ) ≤ a_width ⟨⟨6, 6, 1, 2⟩, ⟨4, 4, 1, 4⟩, ⟨3, 3, 1, 5⟩, 1, 3, 0⟩ ∧
      input_fetches_per_row ⟨⟨6, 6, 1, 2⟩, ⟨4, 4, 1, 4⟩, ⟨3, 3, 1, 5⟩, 1, 3, 0⟩ ≤
        a_padded_width ⟨⟨6, 6, 1, 2⟩, ⟨4, 4, 1, 4⟩, ⟨3, 3, 1, 5⟩, 1, 3, 0⟩ / VECTOR_SIZE) ∧
    ((has_boundary_case ⟨⟨6, 6, 1, 2⟩, ⟨4, 4, 1, 4⟩, ⟨3, 3, 1, 5⟩, 1, 3, 0⟩ =
      decide (result_width ⟨⟨6, 6, 1, 2⟩, ⟨4, 4, 1, 4⟩, ⟨3, 3, 1, 5⟩, 1, 3, 0⟩ *
          k_stride ⟨⟨6, 6, 1, 2⟩, ⟨4, 4, 1, 4⟩, ⟨3, 3, 1, 5⟩, 1, 3, 0⟩ >
        (input_fetches_per_row ⟨⟨6, 6, 1, 2⟩, ⟨4, 4, 1, 4⟩, ⟨3, 3, 1, 5⟩, 1, 3, 0⟩ - 1) *
          VECTOR_SIZE)) ∧
    (has_boundary_case ⟨⟨6, 6, 1, 2⟩, ⟨4, 4, 1, 4⟩, ⟨3, 3, 1, 5⟩, 1, 3, 0⟩ = true →
      load_pipe_reg ⟨⟨6, 6, 1, 2⟩, ⟨4, 4, 1, 4⟩, ⟨3, 3, 1, 5⟩, 1, 3, 0⟩ (fun i => (i : ℚ)) 0 0 2
          (end_col_marker ⟨⟨6, 6, 1, 2⟩, ⟨4, 4, 1, 4⟩, ⟨3, 3, 1, 5⟩, 1, 3, 0⟩) =
        load_vec (fun i => (i : ℚ))
            (a_vec_index ⟨⟨6, 6, 1, 2⟩, ⟨4, 4, 1, 4⟩, ⟨3, 3, 1, 5⟩, 1, 3, 0⟩ 0 0 2
              (end_col_marker ⟨⟨6, 6, 1, 2⟩, ⟨4, 4, 1, 4⟩, ⟨3, 3, 1, 5⟩, 1, 3, 0⟩)) ++
          List.replicate VECTOR_SIZE 0) ∧
    (∀ in_col < end_col ⟨⟨6, 6, 1, 2⟩, ⟨4, 4, 1, 4⟩, ⟨3, 3, 1, 5⟩, 1, 3, 0⟩,
      (∀ j < VECTOR_SIZE,
        a_vec_index ⟨⟨6, 6, 1, 2⟩, ⟨4, 4, 1, 4⟩, ⟨3, 3, 1, 5⟩, 1, 3, 0⟩ 0 0 2 in_col + j <
          a_vec_index ⟨⟨6, 6, 1, 2⟩, ⟨4, 4, 1, 4⟩, ⟨3, 3, 1, 5⟩, 1, 3, 0⟩ 0 0 (2 + 1) 0) ∧
      (¬(has_boundary_case ⟨⟨6, 6, 1, 2⟩, ⟨4, 4, 1, 4⟩, ⟨3, 3, 1, 5⟩, 1, 3, 0⟩ = true ∧
          in_col = end_col_marker ⟨⟨6, 6, 1, 2⟩, ⟨4, 4, 1, 4⟩, ⟨3, 3, 1, 5⟩, 1, 3, 0⟩) →
        ∀ j < VECTOR_SIZE,
          a_vec_index ⟨⟨6, 6, 1, 2⟩, ⟨4, 4, 1, 4⟩, ⟨3, 3, 1, 5⟩, 1, 3, 0⟩ 0 0 2 (in_col + 1) + j <
            a_vec_index ⟨⟨6, 6, 1, 2⟩, ⟨4, 4, 1, 4⟩, ⟨3, 3, 1, 5⟩, 1, 3, 0⟩ 0 0 (2 + 1) 0))) :=
  ⟨⟨by decide, by decide⟩,
    conv2d_boundary_case_spec ⟨⟨6, 6, 1, 2⟩, ⟨4, 4, 1, 4⟩, ⟨3, 3, 1, 5⟩, 1, 3, 0⟩
      (fun i => (i : ℚ)) 0 0 2 (by decide) (by decide)⟩

/- ### Frame reasoning for the commit loop (conv2d_commit, lines 288-294) -/

def result_row_vecs (l : layer_t) : ℕ := result_padded_width l / VECTOR_SIZE

def result_plane_size (l : layer_t) : ℕ :=
  result_height l * result_row_vecs l * VECTOR_SIZE

theorem le_mul_frac_ceil (a : ℕ) : a ≤ VECTOR_SIZE * FRAC_CEIL a VECTOR_SIZE := by
  unfold FRAC_CEIL VECTOR_SIZE
  by_cases h : a % 8 = 0
  · rw [if_pos h]; omega
  · rw [if_neg h]; omega

theorem plane_bound (c h v s d j : ℕ) (hs : s < h) (hd : d < v) (hj : j < 8) :
    c * (h * v * 8) ≤ ((c * h + s) * v + d) * 8 + j ∧
    ((c * h + s) * v + d) * 8 + j < (c + 1) * (h * v * 8) := by
  have l1 : (c * h) * v ≤ (c * h + s) * v :=
    Nat.mul_le_mul_right v (Nat.le_add_right _ _)
  have u1 : (c * h + s) * v + v ≤ (c * h + h) * v := by
    have h1 : (c * h + s + 1) * v ≤ (c * h + h) * v :=
      Nat.mul_le_mul_right v (by omega)
    have h2 : (c * h + s + 1) * v = (c * h + s) * v + v := by ring
    omega
  have l3 : c * (h * v * 8) = ((c * h) * v) * 8 := by ring
  have u3 : (c + 1) * (h * v * 8) = ((c * h + h) * v) * 8 := by ring
  rw [l3, u3]
  omega

theorem result_index_in_plane (l : layer_t) (chan out_row oc j : ℕ)
    (hrow : out_row < result_height l) (hoc : oc < result_width l)
    (hj : j < VECTOR_SIZE)
    (hpad : FRAC_CEIL (result_width l) VECTOR_SIZE ≤ result_row_vecs l) :
    chan * result_plane_size l ≤
      result_scalar_index l chan out_row (oc / VECTOR_SIZE) j ∧
    result_scalar_index l chan out_row (oc / VECTOR_SIZE) j <
      (chan + 1) * result_plane_size l := by
  have h8 : VECTOR_SIZE = 8 := rfl
  have hd : oc / 8 < result_padded_width l / 8 := by
    have h1 := le_mul_frac_ceil (result_width l)
    unfold result_row_vecs at hpad
    rw [h8] at h1 hpad
    omega
  simp only [result_scalar_index, result_plane_size, result_row_vecs, h8]
  exact plane_bound chan (result_height l) (result_padded_width l / 8) out_row
    (oc / 8) j hrow hd (by omega)

theorem max_psums_per_act_le (l : layer_t) :
    (double_tp l = true → max_psums_per_act l ≤ DATAPATH_WIDTH) ∧
    max_psums_per_act l ≤ 2 * DATAPATH_WIDTH := by
  unfold max_psums_per_act DATAPATH_WIDTH
  split_ifs <;> simp_all

theorem conv_sched_total_le (l : layer_t) (oc : ℕ) :
    (conv_sched l oc).total_outpx ≤ VECTOR_SIZE := by
  obtain ⟨hd, hs⟩ := max_psums_per_act_le l
  unfold DATAPATH_WIDTH at hd hs
  unfold conv_sched VECTOR_SIZE
  cases hdt : double_tp l
  · simp [hdt]
    omega
  · have := hd hdt
    simp [hdt]
    omega

theorem conv_sched_total_zero (l : layer_t) (oc : ℕ)
    (h : result_width l ≤ oc) : (conv_sched l oc).total_outpx = 0 := by
  have hrem : result_width l - oc = 0 := by omega
  unfold conv_sched
  by_cases hdt : double_tp l <;> simp [hdt, hrem]

theorem conv_col_group_eq (l : layer_t) (a kernels : ℕ → ℚ)
    (img kern chan in_row out_row : ℕ) (st : ℕ × List ℚ) (in_col : ℕ) :
    conv_col_group l a kernels img kern chan in_row out_row st in_col =
      (if result_width l ≤ st.1 + (conv_sched l st.1).total_outpx then 0
        else st.1 + (conv_sched l st.1).total_outpx,
       (List.range (conv_sched l st.1).total_outpx).foldl (fun res j =>
        res.set (result_scalar_index l chan out_row (st.1 / VECTOR_SIZE) j)
          ((merge_psums_simd_fxp
            (conv_kern_rows l a kernels img kern chan in_row in_col
              (conv_sched l st.1).dp0_iters (conv_sched l st.1).dp1_iters).1
            (conv_kern_rows l a kernels img kern chan in_row in_col
              (conv_sched l st.1).dp0_iters (conv_sched l st.1).dp1_iters).2
            (double_tp l)).getD j 0)) st.2) := rfl

theorem conv_col_group_frame (l : layer_t) (a kernels : ℕ → ℚ)
    (img kern chan in_row out_row : ℕ) (st : ℕ × List ℚ) (in_col : ℕ)
    (hrow : out_row < result_height l)
    (hpad : FRAC_CEIL (result_width l) VECTOR_SIZE ≤ result_row_vecs l) :
    (conv_col_group l a kernels img kern chan in_row out_row st in_col).2.length
      = st.2.length ∧
    ∀ idx, (idx < chan * result_plane_size l ∨
        (chan + 1) * result_plane_size l ≤ idx) →
      (conv_col_group l a kernels img kern chan in_row out_row st in_col).2.getD idx 0
        = st.2.getD idx 0 := by
  rw [conv_col_group_eq]
  rcases Nat.lt_or_ge st.1 (result_width l) with hoc | hoc
  · constructor
    · exact length_foldl_set _ _ _ _
    · intro idx hidx
      refine getD_foldl_set_ne 0 _ _ _ _ _ ?_
      intro j hj
      have hjv : j < VECTOR_SIZE := by
        have h1 := conv_sched_total_le l st.1
        have h2 := List.mem_range.mp hj
        omega
      obtain ⟨hlo, hhi⟩ := result_index_in_plane l chan out_row st.1 j hrow hoc hjv hpad
      omega
  · have h0 : (conv_sched l st.1).total_outpx = 0 := conv_sched_total_zero l st.1 hoc
    rw [h0]
    exact ⟨rfl, fun idx _ => rfl⟩

/-- C10: a call of `convolution2d_smiv_1kernel_1channel_simd_fxp` modifies
only elements of the result buffer lying within channel plane `chan`
(`[chan * result_plane_size, (chan+1) * result_plane_size)` in the
`VEC_ARRAY_3D` layout): every element belonging to any other channel
plane keeps its value, and the buffer length is preserved.  The
activation and kernels buffers are read-only by construction of the
embedding (`conv2d` consumes them as pure functions and returns only the
new result).  The hypotheses state descriptor consistency as at real call
sites: the row loop produces at most `result_height` output rows, and the
alignment pad rounds an output row up to at least `FRAC_CEIL
result_width VECTOR_SIZE` whole vectors. -/
theorem conv2d_frame_spec (l : layer_t) (a kernels : ℕ → ℚ)
    (img kern chan : ℕ) (result : List ℚ)
    (hrows : n_row_iters l ≤ result_height l)
    (hpad : FRAC_CEIL (result_width l) VECTOR_SIZE ≤ result_row_vecs l) :
    (convolution2d_smiv_1kernel_1channel_simd_fxp a kernels img kern chan l result).length
      = result.length ∧
    ∀ idx, (idx < chan * result_plane_size l ∨
        (chan + 1) * result_plane_size l ≤ idx) →
      (convolution2d_smiv_1kernel_1channel_simd_fxp a kernels img kern chan l
        result).getD idx 0 = result.getD idx 0 := by
  unfold convolution2d_smiv_1kernel_1channel_simd_fxp
  refine foldl_inv _ (fun res => res.length = result.length ∧
    ∀ idx, (idx < chan * result_plane_size l ∨
      (chan + 1) * result_plane_size l ≤ idx) →
      res.getD idx 0 = result.getD idx 0) _ result ⟨rfl, fun _ _ => rfl⟩ ?_
  intro res r hres hr
  have hrow : r < result_height l := by
    have := List.mem_range.mp hr
    omega
  have hinner := foldl_inv
    (conv_col_group l a kernels img kern chan (r * row_stride l) r)
    (fun st => st.2.length = result.length ∧
      ∀ idx, (idx < chan * result_plane_size l ∨
        (chan + 1) * result_plane_size l ≤ idx) →
        st.2.getD idx 0 = result.getD idx 0)
    (List.range (end_col l)) (0, res) ⟨hres.1, hres.2⟩ ?_
  · exact hinner
  · intro st ic hst _
    obtain ⟨hlen, hframe⟩ :=
      conv_col_group_frame l a kernels img kern chan (r * row_stride l) r st ic
        hrow hpad
    refine ⟨by rw [hlen, hst.1], ?_⟩
    intro idx hidx
    rw [hframe idx hidx, hst.2 idx hidx]

/-- Witness for C10 at a concrete stride-1 layer and channel 1. -/
theorem conv2d_frame_spec_witness :
    (n_row_iters ⟨⟨6, 6, 2, 2⟩, ⟨4, 4, 2, 4⟩, ⟨3, 3, 2, 5⟩, 1, 3, 0⟩ ≤
        result_height ⟨⟨6, 6, 2, 2⟩, ⟨4, 4, 2, 4⟩, ⟨3, 3, 2, 5⟩, 1, 3, 0⟩ ∧
      FRAC_CEIL (result_width ⟨⟨6, 6, 2, 2⟩, ⟨4, 4, 2, 4⟩, ⟨3, 3, 2, 5⟩, 1, 3, 0⟩)
          VECTOR_SIZE ≤
        result_row_vecs ⟨⟨6, 6, 2, 2⟩, ⟨4, 4, 2, 4⟩, ⟨3, 3, 2, 5⟩, 1, 3, 0⟩) ∧
    ((convolution2d_smiv_1kernel_1channel_simd_fxp (fun i => (i : ℚ)) (fun _ => 1)
        0 0 1 ⟨⟨6, 6, 2, 2⟩, ⟨4, 4, 2, 4⟩, ⟨3, 3, 2, 5⟩, 1, 3, 0⟩
        (List.replicate 64 7)).length = (List.replicate 64 (7 : ℚ)).length ∧
    ∀ idx, (idx < 1 * result_plane_size ⟨⟨6, 6, 2, 2⟩, ⟨4, 4, 2, 4⟩, ⟨3, 3, 2, 5⟩, 1, 3, 0⟩ ∨
        (1 + 1) * result_plane_size ⟨⟨6, 6, 2, 2⟩, ⟨4, 4, 2, 4⟩, ⟨3, 3, 2, 5⟩, 1, 3, 0⟩ ≤ idx) →
      (convolution2d_smiv_1kernel_1channel_simd_fxp (fun i => (i : ℚ)) (fun _ => 1)
        0 0 1 ⟨⟨6, 6, 2, 2⟩, ⟨4, 4, 2, 4⟩, ⟨3, 3, 2, 5⟩, 1, 3, 0⟩
        (List.replicate 64 7)).getD idx 0 = (List.replicate 64 (7 : ℚ)).getD idx 0) :=
  ⟨⟨by decide, by decide⟩,
    conv2d_frame_spec ⟨⟨6, 6, 2, 2⟩, ⟨4, 4, 2, 4⟩, ⟨3, 3, 2, 5⟩, 1, 3, 0⟩
      (fun i => (i : ℚ)) (fun _ => 1) 0 0 1 (List.replicate 64 7)
      (by decide) (by decide)⟩

/- ### SMIV layer dispatch and forward pass (arch/smiv.c) -/

/-- The two ping-ponged buffers of the SMIV forward pass (`result_buf` in
the source is a `float*` that always points at one of them). -/
inductive result_buf where
  | act
  | res
deriving DecidableEq

/-- Embedding of `convolution_layer` (arch/smiv.c lines 68-95).  The
external collaborators are parameters: `copy_zeropad` maps the
activations and the padding amount `(field_size - 1) / 2` to the padded
image written into its destination buffer, and `conv_hw` stands for
`convolution_layer_hw` (DMA-in, `convolution2d_smiv`, DMA-out), mapping
the input image and the weights to the output written into its result
argument.  Returned are the new contents of the activations buffer, the
new contents of the result buffer, and which buffer the function returns
as holding the layer output. -/
def convolution_layer (copy_zeropad : List ℚ → ℕ → List ℚ)
    (conv_hw : List ℚ → List ℚ → List ℚ)
    (activations weights result : List ℚ) (curr_layer : layer_t) :
    List ℚ × List ℚ × result_buf :=
  if 0 < curr_layer.c_padding then
    let padding := (curr_layer.field_size - 1) / 2
    let result2 := copy_zeropad activations padding
    let activations2 := conv_hw result2 weights
    (activations2, result2, result_buf.act)
  else
    (activations, conv_hw activations weights, result_buf.res)

/-- C6: when the layer's padding is positive, `convolution_layer` first
writes the zero-padded copy of the input into the result buffer, then
invokes the convolution kernel reading activations from the result buffer
and writing output into the activations buffer, and returns the
activations buffer as the output location; with padding 0 it invokes the
kernel reading from the activations buffer, writing into the result
buffer, and returns the result buffer. -/
theorem convolution_layer_spec (copy_zeropad : List ℚ → ℕ → List ℚ)
    (conv_hw : List ℚ → List ℚ → List ℚ)
    (activations weights result : List ℚ) (curr_layer : layer_t) :
    (0 < curr_layer.c_padding →
      convolution_layer copy_zeropad conv_hw activations weights result curr_layer =
        (conv_hw (copy_zeropad activations ((curr_layer.field_size - 1) / 2)) weights,
         copy_zeropad activations ((curr_layer.field_size - 1) / 2),
         result_buf.act)) ∧
    (curr_layer.c_padding = 0 →
      convolution_layer copy_zeropad conv_hw activations weights result curr_layer =
        (activations, conv_hw activations weights, result_buf.res)) := by
  constructor
  · intro h
    unfold convolution_layer
    rw [if_pos h]
  · intro h
    unfold convolution_layer
    rw [if_neg (by omega)]

/-- Witness for C6: both branches at concrete collaborator functions. -/
theorem convolution_layer_spec_witness :
    (0 < (1 : ℕ) ∧
      convolution_layer (fun acts p => (p : ℚ) :: acts) (fun input w => input ++ w)
        [10] [20] [30] ⟨⟨6, 6, 1, 2⟩, ⟨4, 4, 1, 4⟩, ⟨3, 3, 1, 5⟩, 1, 3, 1⟩ =
        ((fun input w => input ++ w)
          ((fun (acts : List ℚ) (p : ℕ) => (p : ℚ) :: acts) [10]
            ((3 - 1) / 2)) [20],
         (fun (acts : List ℚ) (p : ℕ) => (p : ℚ) :: acts) [10] ((3 - 1) / 2),
         result_buf.act)) ∧
    ((0 : ℕ) = 0 ∧
      convolution_layer (fun acts p => (p : ℚ) :: acts) (fun input w => input ++ w)
        [10] [20] [30] ⟨⟨6, 6, 1, 2⟩, ⟨4, 4, 1, 4⟩, ⟨3, 3, 1, 5⟩, 1, 3, 0⟩ =
        ([10], (fun (input w : List ℚ) => input ++ w) [10] [20], result_buf.res)) :=
  ⟨⟨by decide,
    (convolution_layer_spec (fun acts p => (p : ℚ) :: acts)
      (fun input w => input ++ w) [10] [20] [30]
      ⟨⟨6, 6, 1, 2⟩, ⟨4, 4, 1, 4⟩, ⟨3, 3, 1, 5⟩, 1, 3, 1⟩).1 (by decide)⟩,
   ⟨rfl,
    (convolution_layer_spec (fun acts p => (p : ℚ) :: acts)
      (fun input w => input ++ w) [10] [20] [30]
      ⟨⟨6, 6, 1, 2⟩, ⟨4, 4, 1, 4⟩, ⟨3, 3, 1, 5⟩, 1, 3, 0⟩).2 rfl⟩⟩

/-- Embedding of the `nnet_fwd` primary loop (arch/smiv.c lines 156-167).
`run_layer` is the per-layer dispatch, a parameter here: it receives the
layer index, the current buffer contents, the buffer to read activations
from and the buffer given as result argument, and returns the new buffer
contents together with the buffer it reports as holding the layer output
(its `result_buf` return value).  `result_loc` starts at the activations
buffer; each iteration reads from the buffer `result_loc` points at,
writes to the other one, and stores `run_layer`'s returned location. -/
def nnet_fwd_loop (run_layer : ℕ → (result_buf → List ℚ) → result_buf →
    result_buf → ((result_buf → List ℚ) × result_buf)) (depth : ℕ)
    (init : result_buf → List ℚ) : (result_buf → List ℚ) × result_buf :=
  (List.range depth).foldl (fun st l =>
    if st.2 = result_buf.res then run_layer l st.1 result_buf.res result_buf.act
    else run_layer l st.1 result_buf.act result_buf.res)
    (init, result_buf.act)

/-- Embedding of the tail of `nnet_fwd` (arch/smiv.c lines 169-176): the
`result_in_temp` flag stored into the last layer descriptor, and the
buffer contents read by the final `dmaStore`. -/
def nnet_fwd_final (run_layer : ℕ → (result_buf → List ℚ) → result_buf →
    result_buf → ((result_buf → List ℚ) × result_buf)) (depth : ℕ)
    (init : result_buf → List ℚ) : Bool × List ℚ :=
  let st := nnet_fwd_loop run_layer depth init
  (decide (st.2 = result_buf.res),
   if st.2 = result_buf.res then st.1 result_buf.res else st.1 result_buf.act)

/-- C7: assuming each `run_layer` call returns the buffer into which it
wrote that layer's output (`houtput`: the returned location holds
`output_of l`), `nnet_fwd` maintains the invariant that `result_loc`
always equals the buffer holding the most recently produced activations;
after the loop, `result_in_temp` is true iff the final output resides in
the result buffer; and the final store reads exactly the buffer holding
the last layer's output. -/
theorem nnet_fwd_result_loc_spec
    (run_layer : ℕ → (result_buf → List ℚ) → result_buf → result_buf →
      ((result_buf → List ℚ) × result_buf))
    (output_of : ℕ → List ℚ) (depth : ℕ) (init : result_buf → List ℚ)
    (houtput : ∀ l bufs i o,
      (run_layer l bufs i o).1 ((run_layer l bufs i o).2) = output_of l)
    (hdepth : 1 ≤ depth) :
    (∀ t, 1 ≤ t → t ≤ depth →
      (nnet_fwd_loop run_layer t init).1 ((nnet_fwd_loop run_layer t init).2) =
        output_of (t - 1)) ∧
    ((nnet_fwd_final run_layer depth init).1 = true ↔
      (nnet_fwd_loop run_layer depth init).2 = result_buf.res) ∧
    (nnet_fwd_final run_layer depth init).2 =
      (nnet_fwd_loop run_layer depth init).1
        ((nnet_fwd_loop run_layer depth init).2) ∧
    (nnet_fwd_final run_layer depth init).2 = output_of (depth - 1) := by
  have hstep : ∀ t, nnet_fwd_loop run_layer (t + 1) init =
      (fun (st : (result_buf → List ℚ) × result_buf) l =>
        if st.2 = result_buf.res then run_layer l st.1 result_buf.res result_buf.act
        else run_layer l st.1 result_buf.act result_buf.res)
        (nnet_fwd_loop run_layer t init) t := by
    intro t
    unfold nnet_fwd_loop
    rw [List.range_succ, List.foldl_append, List.foldl_cons, List.foldl_nil]
  have hinv : ∀ t, 1 ≤ t → t ≤ depth →
      (nnet_fwd_loop run_layer t init).1 ((nnet_fwd_loop run_layer t init).2) =
        output_of (t - 1) := by
    intro t h1 _
    obtain ⟨t, rfl⟩ : ∃ u, t = u + 1 := ⟨t - 1, by omega⟩
    rw [hstep t]
    by_cases hb : (nnet_fwd_loop run_layer t init).2 = result_buf.res
    · simp only [hb, if_pos]
      simpa using houtput t (nnet_fwd_loop run_layer t init).1
        result_buf.res result_buf.act
    · simp only [hb, if_neg, if_false]
      simpa using houtput t (nnet_fwd_loop run_layer t init).1
        result_buf.act result_buf.res
  have hread : (nnet_fwd_final run_layer depth init).2 =
      (nnet_fwd_loop run_layer depth init).1
        ((nnet_fwd_loop run_layer depth init).2) := by
    unfold nnet_fwd_final
    by_cases hb : (nnet_fwd_loop run_layer depth init).2 = result_buf.res
    · simp [hb]
    · have : (nnet_fwd_loop run_layer depth init).2 = result_buf.act := by
        cases h : (nnet_fwd_loop run_layer depth init).2
        · rfl
        · exact absurd h hb
      simp [this]
  refine ⟨hinv, ?_, hread, ?_⟩
  · unfold nnet_fwd_final
    simp
  · rw [hread]
    exact hinv depth hdepth le_rfl

/-- Witness for C7: a two-layer network where layer `l` writes `[l]` into
its output-argument buffer and reports that buffer. -/
theorem nnet_fwd_result_loc_spec_witness :
    ((∀ (l : ℕ) (bufs : result_buf → List ℚ) (i o : result_buf),
      ((fun (l : ℕ) (bufs : result_buf → List ℚ) (_ o : result_buf) =>
          (Function.update bufs o [(l : ℚ)], o)) l bufs i o).1
        (((fun (l : ℕ) (bufs : result_buf → List ℚ) (_ o : result_buf) =>
          (Function.update bufs o [(l : ℚ)], o)) l bufs i o).2) = [(l : ℚ)]) ∧
      (1 : ℕ) ≤ 2) ∧
    ((∀ t, 1 ≤ t → t ≤ 2 →
      (nnet_fwd_loop (fun (l : ℕ) (bufs : result_buf → List ℚ) (_ o : result_buf) =>
          (Function.update bufs o [(l : ℚ)], o)) t (fun _ => [])).1
        ((nnet_fwd_loop (fun (l : ℕ) (bufs : result_buf → List ℚ) (_ o : result_buf) =>
          (Function.update bufs o [(l : ℚ)], o)) t (fun _ => [])).2) = [((t : ℚ) - 1)]) ∧
    ((nnet_fwd_final (fun (l : ℕ) (bufs : result_buf → List ℚ) (_ o : result_buf) =>
          (Function.update bufs o [(l : ℚ)], o)) 2 (fun _ => [])).1 = true ↔
      (nnet_fwd_loop (fun (l : ℕ) (bufs : result_buf → List ℚ) (_ o : result_buf) =>
          (Function.update bufs o [(l : ℚ)], o)) 2 (fun _ => [])).2 = result_buf.res) ∧
    (nnet_fwd_final (fun (l : ℕ) (bufs : result_buf → List ℚ) (_ o : result_buf) =>
          (Function.update bufs o [(l : ℚ)], o)) 2 (fun _ => [])).2 =
      (nnet_fwd_loop (fun (l : ℕ) (bufs : result_buf → List ℚ) (_ o : result_buf) =>
          (Function.update bufs o [(l : ℚ)], o)) 2 (fun _ => [])).1
        ((nnet_fwd_loop (fun (l : ℕ) (bufs : result_buf → List ℚ) (_ o : result_buf) =>
          (Function.update bufs o [(l : ℚ)], o)) 2 (fun _ => [])).2) ∧
    (nnet_fwd_final (fun (l : ℕ) (bufs : result_buf → List ℚ) (_ o : result_buf) =>
          (Function.update bufs o [(l : ℚ)], o)) 2 (fun _ => [])).2 = [((2 : ℚ) - 1)]) := by
  have hout : ∀ (l : ℕ) (bufs : result_buf → List ℚ) (i o : result_buf),
      ((fun (l : ℕ) (bufs : result_buf → List ℚ) (_ o : result_buf) =>
          (Function.update bufs o [(l : ℚ)], o)) l bufs i o).1
        (((fun (l : ℕ) (bufs : result_buf → List ℚ) (_ o : result_buf) =>
          (Function.update bufs o [(l : ℚ)], o)) l bufs i o).2) = [(l : ℚ)] := by
    intro l bufs i o
    simp
  have hmain := nnet_fwd_result_loc_spec
    (fun (l : ℕ) (bufs : result_buf → List ℚ) (_ o : result_buf) =>
      (Function.update bufs o [(l : ℚ)], o))
    (fun l => [(l : ℚ)]) 2 (fun _ => []) hout (by omega)
  refine ⟨⟨hout, by omega⟩, ?_, hmain.2.1, hmain.2.2.1, ?_⟩
  · intro t h1 h2
    have := hmain.1 t h1 h2
    rw [this]
    have ht : t = 1 ∨ t = 2 := by omega
    rcases ht with rfl | rfl <;> norm_num
  · have := hmain.2.2.2
    rw [this]
    norm_num

/- ### Graph scheduler (core/scheduler.h lines 13-27) -/

/-- An operator dependency graph: vertices and directed edges `(u, v)`
meaning operator `v` depends on (consumes the output of) `u`. -/
structure op_graph where
  verts : List ℕ
  edges : List (ℕ × ℕ)

/-- Embedding of `runNetwork`.  `boost::topological_sort` with a
`front_inserter` is the external collaborator; it is represented by the
vertex list `vertices` it produces (topological order).  The loop runs
each operator of that list in turn — modelled by recording the vertex in
a trace — and overwrites `output` with output tensor 0 of the operator
just run; the final `output` is returned. -/
def runNetwork (vertices : List ℕ) (getOutput0 : ℕ → List ℚ) :
    List ℕ × Option (List ℚ) :=
  vertices.foldl (fun st v => (st.1 ++ [v], some (getOutput0 v))) ([], none)

/-- The trace of `runNetwork` is exactly the sorted vertex list, and the
returned tensor is output 0 of the last vertex of the list. -/
theorem runNetwork_trace (getOutput0 : ℕ → List ℚ) :
    ∀ (vertices acc : List ℕ) (out : Option (List ℚ)),
      (vertices.foldl (fun st v => (st.1 ++ [v], some (getOutput0 v))) (acc, out)).1
        = acc ++ vertices ∧
      (vertices.foldl (fun st v => (st.1 ++ [v], some (getOutput0 v))) (acc, out)).2
        = (if h : vertices = [] then out
           else some (getOutput0 (vertices.getLast h)))
  | [], acc, out => by simp
  | x :: t, acc, out => by
      rw [List.foldl_cons]
      obtain ⟨h1, h2⟩ := runNetwork_trace getOutput0 t (acc ++ [x]) (some (getOutput0 x))
      refine ⟨by rw [h1]; simp, ?_⟩
      rw [h2]
      by_cases ht : t = []
      · subst ht
        simp
      · rw [dif_neg ht, dif_neg (by simp), List.getLast_cons ht]

/-- C9: given that the externally produced topological order `vertices`
enumerates every operator vertex exactly once and respects every
dependency edge, `runNetwork` runs each operator exactly once (its trace
counts every vertex once), runs an operator only after everything it
depends on (every edge's source appears strictly earlier in the trace),
and returns output tensor 0 of the operator that runs last. -/
theorem runNetwork_spec (g : op_graph) (vertices : List ℕ)
    (getOutput0 : ℕ → List ℚ)
    (hperm : ∀ v, v ∈ g.verts ↔ v ∈ vertices)
    (hnodup : vertices.Nodup)
    (htopo : ∀ e ∈ g.edges, vertices.indexOf e.1 < vertices.indexOf e.2)
    (hne : vertices ≠ []) :
    (∀ v ∈ g.verts, (runNetwork vertices getOutput0).1.count v = 1) ∧
    (∀ e ∈ g.edges,
      (runNetwork vertices getOutput0).1.indexOf e.1 <
        (runNetwork vertices getOutput0).1.indexOf e.2) ∧
    (runNetwork vertices getOutput0).2 =
      some (getOutput0 (vertices.getLast hne)) := by
  obtain ⟨h1, h2⟩ := runNetwork_trace getOutput0 vertices [] none
  have htr : (runNetwork vertices getOutput0).1 = vertices := by
    unfold runNetwork
    rw [h1]
    simp
  refine ⟨?_, ?_, ?_⟩
  · intro v hv
    rw [htr]
    exact List.count_eq_one_of_mem hnodup ((hperm v).mp hv)
  · intro e he
    rw [htr]
    exact htopo e he
  · show (vertices.foldl (fun st v => (st.1 ++ [v], some (getOutput0 v))) ([], none)).2 = _
    rw [h2, dif_neg hne]

/-- Witness for C9: a three-operator chain run in order `[0, 1, 2]`. -/
theorem runNetwork_spec_witness :
    ((∀ v, v ∈ (⟨[0, 1, 2], [(0, 1), (1, 2)]⟩ : op_graph).verts ↔ v ∈ [0, 1, 2]) ∧
      ([0, 1, 2] : List ℕ).Nodup ∧
      (∀ e ∈ (⟨[0, 1, 2], [(0, 1), (1, 2)]⟩ : op_graph).edges,
        ([0, 1, 2] : List ℕ).indexOf e.1 < ([0, 1, 2] : List ℕ).indexOf e.2) ∧
      ([0, 1, 2] : List ℕ) ≠ []) ∧
    ((∀ v ∈ (⟨[0, 1, 2], [(0, 1), (1, 2)]⟩ : op_graph).verts,
      (runNetwork [0, 1, 2] (fun v => [(v : ℚ)])).1.count v = 1) ∧
    (∀ e ∈ (⟨[0, 1, 2], [(0, 1), (1, 2)]⟩ : op_graph).edges,
      (runNetwork [0, 1, 2] (fun v => [(v : ℚ)])).1.indexOf e.1 <
        (runNetwork [0, 1, 2] (fun v => [(v : ℚ)])).1.indexOf e.2) ∧
    (runNetwork [0, 1, 2] (fun v => [(v : ℚ)])).2 =
      some ((fun (v : ℕ) => [(v : ℚ)]) (([0, 1, 2] : List ℕ).getLast (by simp)))) :=
  ⟨⟨fun v => Iff.rfl, by decide, by decide, by simp⟩,
    runNetwork_spec ⟨[0, 1, 2], [(0, 1), (1, 2)]⟩ [0, 1, 2] (fun v => [(v : ℚ)])
      (fun v => Iff.rfl) (by decide) (by decide) (by simp)⟩
